import Mathlib

/-!
Shallow embedding of the `mqtt` module of the `udd` repository
(`src/mqtt.rs`, `src/mqtt/impls.rs`): a length-prefixed binary codec for a
small publish/subscribe protocol carried in single UDP datagrams.

Modelling conventions:
* Rust byte buffers (`&[u8]`, `Vec<u8>`) are `List Nat`; every byte the
  encoders emit is `< 256` because each write site applies the same
  wrap (`as u8` becomes `% 256`, `as u16` becomes `% 65536`) as the source.
* Rust `String` fields are their UTF-8 byte content (`List Nat`); the decoder
  runs an explicit UTF-8 validator mirroring `std::str::from_utf8`.
* Fallible Rust functions returning `Result<T, DecodeError>` become
  `Except DecodeError T`.
* `UdpFrame::decode` contains the slice expression `&buf[4..length]`, which
  panics in Rust when `length < 4`.  The embedding returns
  `Option (Except DecodeError UdpFrame)`, where `none` models that panic and
  `some` models normal return.
-/

namespace Udd

/-- Decidable equality for `Except`, so concrete decoder outputs can be
checked by `decide`. -/
instance {ε α : Type _} [DecidableEq ε] [DecidableEq α] :
    DecidableEq (Except ε α) := fun a b =>
  match a, b with
  | .error e1, .error e2 =>
    if h : e1 = e2 then isTrue (by rw [h]) else isFalse (by simp [h])
  | .error _, .ok _ => isFalse (by simp)
  | .ok _, .error _ => isFalse (by simp)
  | .ok a1, .ok a2 =>
    if h : a1 = a2 then isTrue (by rw [h]) else isFalse (by simp [h])

/-- Byte buffers: each element models one `u8`. -/
abbrev Bytes := List Nat

/-- `DecodeError` from `src/mqtt.rs`. -/
inductive DecodeError where
  | BufferTooShort (expected : Nat) (actual : Nat)
  | InvalidMessageType (v : Nat)
  | InvalidQoS (v : Nat)
  | InvalidReturnCode (v : Nat)
  | InvalidUtf8
  | PayloadTooLarge
  | MalformedPacket (msg : String)
deriving DecidableEq, Repr

/-- `MessageType` from `src/mqtt.rs` (`repr(u8)` values 0x01..0x09). -/
inductive MessageType where
  | Connect
  | ConnAck
  | Publish
  | PubAck
  | Subscribe
  | SubAck
  | PingReq
  | PingResp
  | Disconnect
deriving DecidableEq, Repr

/-- `u8::from(MessageType)`: the wire discriminant. -/
def MessageType.toByte : MessageType → Nat
  | .Connect => 0x01
  | .ConnAck => 0x02
  | .Publish => 0x03
  | .PubAck => 0x04
  | .Subscribe => 0x05
  | .SubAck => 0x06
  | .PingReq => 0x07
  | .PingResp => 0x08
  | .Disconnect => 0x09

/-- `MessageType::try_from(u8)`. -/
def MessageType.tryFrom (value : Nat) : Except DecodeError MessageType :=
  match value with
  | 0x01 => .ok .Connect
  | 0x02 => .ok .ConnAck
  | 0x03 => .ok .Publish
  | 0x04 => .ok .PubAck
  | 0x05 => .ok .Subscribe
  | 0x06 => .ok .SubAck
  | 0x07 => .ok .PingReq
  | 0x08 => .ok .PingResp
  | 0x09 => .ok .Disconnect
  | v => .error (.InvalidMessageType v)

/-- `QoS` from `src/mqtt.rs`. -/
inductive QoS where
  | AtMostOnce
  | AtLeastOnce
  | ExactlyOnce
deriving DecidableEq, Repr

/-- `u8::from(QoS)`. -/
def QoS.toByte : QoS → Nat
  | .AtMostOnce => 0
  | .AtLeastOnce => 1
  | .ExactlyOnce => 2

/-- `QoS::try_from(u8)`; the error payload is the offending byte. -/
def QoS.tryFrom (value : Nat) : Except Nat QoS :=
  match value with
  | 0 => .ok .AtMostOnce
  | 1 => .ok .AtLeastOnce
  | 2 => .ok .ExactlyOnce
  | v => .error v

/-- `ConnectReturnCode` from `src/mqtt.rs`. -/
inductive ConnectReturnCode where
  | Accepted
  | UnacceptableProtocol
  | IdentifierRejected
  | ServerUnavailable
  | BadCredentials
  | NotAuthorized
deriving DecidableEq, Repr

/-- `u8::from(ConnectReturnCode)`. -/
def ConnectReturnCode.toByte : ConnectReturnCode → Nat
  | .Accepted => 0x00
  | .UnacceptableProtocol => 0x01
  | .IdentifierRejected => 0x02
  | .ServerUnavailable => 0x03
  | .BadCredentials => 0x04
  | .NotAuthorized => 0x05

/-- `ConnectReturnCode::try_from(u8)`. -/
def ConnectReturnCode.tryFrom (value : Nat) : Except Nat ConnectReturnCode :=
  match value with
  | 0x00 => .ok .Accepted
  | 0x01 => .ok .UnacceptableProtocol
  | 0x02 => .ok .IdentifierRejected
  | 0x03 => .ok .ServerUnavailable
  | 0x04 => .ok .BadCredentials
  | 0x05 => .ok .NotAuthorized
  | v => .error v

/-- `SubAckReturnCode` from `src/mqtt.rs`. -/
inductive SubAckReturnCode where
  | SuccessQoS0
  | SuccessQoS1
  | SuccessQoS2
  | Failure
deriving DecidableEq, Repr

/-- `u8::from(SubAckReturnCode)`. -/
def SubAckReturnCode.toByte : SubAckReturnCode → Nat
  | .SuccessQoS0 => 0x00
  | .SuccessQoS1 => 0x01
  | .SuccessQoS2 => 0x02
  | .Failure => 0x80

/-- `SubAckReturnCode::try_from(u8)`. -/
def SubAckReturnCode.tryFrom (value : Nat) : Except Nat SubAckReturnCode :=
  match value with
  | 0x00 => .ok .SuccessQoS0
  | 0x01 => .ok .SuccessQoS1
  | 0x02 => .ok .SuccessQoS2
  | 0x80 => .ok .Failure
  | v => .error v

/-- A UTF-8 continuation byte (`0x80..=0xBF`). -/
def utf8Cont (b : Nat) : Bool := decide (0x80 ≤ b) && decide (b ≤ 0xBF)

/-- Legal second byte of a 3-byte UTF-8 sequence led by `b1`
(the `0xE0`/`0xED` rows have restricted ranges). -/
def utf8Second3 (b1 b2 : Nat) : Bool :=
  if b1 = 0xE0 then decide (0xA0 ≤ b2) && decide (b2 ≤ 0xBF)
  else if b1 = 0xED then decide (0x80 ≤ b2) && decide (b2 ≤ 0x9F)
  else utf8Cont b2

/-- Legal second byte of a 4-byte UTF-8 sequence led by `b1`
(the `0xF0`/`0xF4` rows have restricted ranges). -/
def utf8Second4 (b1 b2 : Nat) : Bool :=
  if b1 = 0xF0 then decide (0x90 ≤ b2) && decide (b2 ≤ 0xBF)
  else if b1 = 0xF4 then decide (0x80 ≤ b2) && decide (b2 ≤ 0x8F)
  else utf8Cont b2

/-- UTF-8 validity of a byte list, mirroring `std::str::from_utf8`
(RFC 3629: no overlong forms, no surrogates, maximum U+10FFFF). -/
def utf8Valid : List Nat → Bool
  | [] => true
  | b1 :: rest =>
    if b1 ≤ 0x7F then utf8Valid rest
    else
      match rest with
      | [] => false
      | b2 :: rest2 =>
        if 0xC2 ≤ b1 ∧ b1 ≤ 0xDF then utf8Cont b2 && utf8Valid rest2
        else if 0xE0 ≤ b1 ∧ b1 ≤ 0xEF then
          match rest2 with
          | [] => false
          | b3 :: rest3 => utf8Second3 b1 b2 && utf8Cont b3 && utf8Valid rest3
        else if 0xF0 ≤ b1 ∧ b1 ≤ 0xF4 then
          match rest2 with
          | [] => false
          | b3 :: rest3 =>
            match rest3 with
            | [] => false
            | b4 :: rest4 =>
              utf8Second4 b1 b2 && utf8Cont b3 && utf8Cont b4 && utf8Valid rest4
        else false

/-- The Rust slice `&buf[s..e]` when `s ≤ e ≤ buf.len()` (in-bounds use). -/
def sliceList (buf : Bytes) (s e : Nat) : Bytes := (buf.take e).drop s

/-- `read_u16` from `src/mqtt.rs`: big-endian 16-bit read with bounds check. -/
def readU16 (buf : Bytes) (offset : Nat) : Except DecodeError Nat :=
  if buf.length < offset + 2 then
    .error (.BufferTooShort (offset + 2) buf.length)
  else
    .ok (buf.getD offset 0 * 256 + buf.getD (offset + 1) 0)

/-- `read_string` from `src/mqtt.rs`: 16-bit length prefix, then that many
bytes which must be valid UTF-8; returns the content and the next offset. -/
def readString (buf : Bytes) (offset : Nat) : Except DecodeError (Bytes × Nat) :=
  match readU16 buf offset with
  | .error e => .error e
  | .ok len =>
    let stop := offset + 2 + len
    if buf.length < stop then
      .error (.BufferTooShort stop buf.length)
    else
      let s := sliceList buf (offset + 2) stop
      if utf8Valid s then .ok (s, stop) else .error .InvalidUtf8

/-- Big-endian bytes of `v as u16` (`u16::to_be_bytes`). -/
def u16be (v : Nat) : Bytes := [v / 256 % 256, v % 256]

/-- `write_string` from `src/mqtt.rs`: the bytes appended for a string field
(length as `u16` big-endian, then the UTF-8 content). -/
def writeString (s : Bytes) : Bytes := u16be s.length ++ s

/-- `Connect` packet (string fields carried as UTF-8 bytes). -/
structure Connect where
  client_id : Bytes
  keep_alive : Nat
  clean_session : Bool
  username : Option Bytes
  password : Option Bytes
deriving DecidableEq, Repr

/-- `Connect::flags`. -/
def Connect.flags (c : Connect) : Nat :=
  (if c.clean_session then 0x02 else 0) |||
    (if c.username.isSome then 0x80 else 0) |||
    (if c.password.isSome then 0x40 else 0)

/-- Bytes appended by `Connect::encode`. -/
def Connect.encode (c : Connect) : Bytes :=
  c.flags :: (u16be c.keep_alive ++ writeString c.client_id
    ++ (match c.username with | some u => writeString u | none => [])
    ++ (match c.password with | some p => u16be p.length ++ p | none => []))

/-- `Connect::encoded_len`. -/
def Connect.encodedLen (c : Connect) : Nat :=
  1 + 2 + 2 + c.client_id.length
    + (match c.username with | some u => 2 + u.length | none => 0)
    + (match c.password with | some p => 2 + p.length | none => 0)

/-- `Connect::decode`. -/
def Connect.decode (buf : Bytes) : Except DecodeError Connect :=
  if buf.length < 3 then .error (.BufferTooShort 3 buf.length)
  else
    let flags := buf.getD 0 0
    let clean_session := flags &&& 0x02 != 0
    let has_username := flags &&& 0x80 != 0
    let has_password := flags &&& 0x40 != 0
    match readU16 buf 1 with
    | .error e => .error e
    | .ok keep_alive =>
      match readString buf 3 with
      | .error e => .error e
      | .ok (client_id, offset0) =>
        match (if has_username then
                 match readString buf offset0 with
                 | .error e => .error e
                 | .ok (u, newOffset) => .ok (some u, newOffset)
               else (.ok (none, offset0) : Except DecodeError (Option Bytes × Nat))) with
        | .error e => .error e
        | .ok (username, offset1) =>
          match (if has_password then
                   match readU16 buf offset1 with
                   | .error e => .error e
                   | .ok len =>
                     let stop := offset1 + 2 + len
                     if buf.length < stop then
                       .error (.BufferTooShort stop buf.length)
                     else .ok (some (sliceList buf (offset1 + 2) stop))
                 else (.ok none : Except DecodeError (Option Bytes))) with
          | .error e => .error e
          | .ok password =>
            .ok ⟨client_id, keep_alive, clean_session, username, password⟩

/-- `ConnAck` packet. -/
structure ConnAck where
  session_present : Bool
  return_code : ConnectReturnCode
deriving DecidableEq, Repr

/-- Bytes appended by `ConnAck::encode`. -/
def ConnAck.encode (c : ConnAck) : Bytes :=
  [if c.session_present then 1 else 0, c.return_code.toByte]

/-- `ConnAck::encoded_len`. -/
def ConnAck.encodedLen (_ : ConnAck) : Nat := 2

/-- `ConnAck::decode`. -/
def ConnAck.decode (buf : Bytes) : Except DecodeError ConnAck :=
  if buf.length < 2 then .error (.BufferTooShort 2 buf.length)
  else
    match ConnectReturnCode.tryFrom (buf.getD 1 0) with
    | .error v => .error (.InvalidReturnCode v)
    | .ok rc => .ok ⟨buf.getD 0 0 != 0, rc⟩

/-- `Publish` packet. -/
structure Publish where
  topic : Bytes
  qos : QoS
  retain : Bool
  payload : Bytes
deriving DecidableEq, Repr

/-- `Publish::flags`. -/
def Publish.flags (p : Publish) : Nat :=
  (p.qos.toByte <<< 1) ||| (if p.retain then 0x01 else 0)

/-- Bytes appended by `Publish::encode`. -/
def Publish.encode (p : Publish) : Bytes :=
  p.flags :: (writeString p.topic ++ p.payload)

/-- `Publish::encoded_len`. -/
def Publish.encodedLen (p : Publish) : Nat :=
  1 + 2 + p.topic.length + p.payload.length

/-- `Publish::decode`. -/
def Publish.decode (buf : Bytes) : Except DecodeError Publish :=
  if buf.length = 0 then .error (.BufferTooShort 1 0)
  else
    let flags := buf.getD 0 0
    match QoS.tryFrom ((flags >>> 1) &&& 0x03) with
    | .error v => .error (.InvalidQoS v)
    | .ok qos =>
      let retain := flags &&& 0x01 != 0
      match readString buf 1 with
      | .error e => .error e
      | .ok (topic, offset) => .ok ⟨topic, qos, retain, buf.drop offset⟩

/-- `PubAck` (zero-payload marker). -/
structure PubAck where
deriving DecidableEq, Repr

/-- Bytes appended by `PubAck::encode`: nothing. -/
def PubAck.encode (_ : PubAck) : Bytes := []

/-- `PubAck::encoded_len`. -/
def PubAck.encodedLen (_ : PubAck) : Nat := 0

/-- `PubAck::decode`: accepts any payload. -/
def PubAck.decode (_ : Bytes) : Except DecodeError PubAck := .ok ⟨⟩

/-- `SubscribeFilter`. -/
structure SubscribeFilter where
  topic : Bytes
  qos : QoS
deriving DecidableEq, Repr

/-- `Subscribe` packet. -/
structure Subscribe where
  filters : List SubscribeFilter
deriving DecidableEq, Repr

/-- Bytes appended for the filter list of `Subscribe::encode`
(per filter: string-encoded topic, then the QoS byte). -/
def encFilters : List SubscribeFilter → Bytes
  | [] => []
  | f :: fs => writeString f.topic ++ (f.qos.toByte :: encFilters fs)

/-- Bytes appended by `Subscribe::encode` (`filters.len() as u8`, then the
filters in order). -/
def Subscribe.encode (s : Subscribe) : Bytes :=
  (s.filters.length % 256) :: encFilters s.filters

/-- `Subscribe::encoded_len`. -/
def Subscribe.encodedLen (s : Subscribe) : Nat :=
  1 + (s.filters.map (fun f => 2 + f.topic.length + 1)).sum

/-- The `for _ in 0..count` loop of `Subscribe::decode`. -/
def subscribeLoop (buf : Bytes) : Nat → Nat → Except DecodeError (List SubscribeFilter)
  | _, 0 => .ok []
  | offset, n + 1 =>
    match readString buf offset with
    | .error e => .error e
    | .ok (topic, newOffset) =>
      if buf.length ≤ newOffset then .error (.BufferTooShort (newOffset + 1) buf.length)
      else
        match QoS.tryFrom (buf.getD newOffset 0) with
        | .error v => .error (.InvalidQoS v)
        | .ok qos =>
          match subscribeLoop buf (newOffset + 1) n with
          | .error e => .error e
          | .ok fs => .ok (⟨topic, qos⟩ :: fs)

/-- `Subscribe::decode`. -/
def Subscribe.decode (buf : Bytes) : Except DecodeError Subscribe :=
  if buf.length = 0 then .error (.BufferTooShort 1 0)
  else
    match subscribeLoop buf 1 (buf.getD 0 0) with
    | .error e => .error e
    | .ok filters => .ok ⟨filters⟩

/-- `SubAck` packet. -/
structure SubAck where
  return_codes : List SubAckReturnCode
deriving DecidableEq, Repr

/-- Bytes appended by `SubAck::encode`. -/
def SubAck.encode (s : SubAck) : Bytes :=
  (s.return_codes.length % 256) :: s.return_codes.map SubAckReturnCode.toByte

/-- `SubAck::encoded_len`. -/
def SubAck.encodedLen (s : SubAck) : Nat := 1 + s.return_codes.length

/-- The `iter().map(try_from).collect::<Result<_>>()` of `SubAck::decode`:
stops at the first invalid code byte. -/
def mapCodes : List Nat → Except DecodeError (List SubAckReturnCode)
  | [] => .ok []
  | b :: rest =>
    match SubAckReturnCode.tryFrom b with
    | .error v => .error (.InvalidReturnCode v)
    | .ok c =>
      match mapCodes rest with
      | .error e => .error e
      | .ok cs => .ok (c :: cs)

/-- `SubAck::decode`. -/
def SubAck.decode (buf : Bytes) : Except DecodeError SubAck :=
  if buf.length = 0 then .error (.BufferTooShort 1 0)
  else
    let count := buf.getD 0 0
    if buf.length < 1 + count then .error (.BufferTooShort (1 + count) buf.length)
    else
      match mapCodes (sliceList buf 1 (1 + count)) with
      | .error e => .error e
      | .ok cs => .ok ⟨cs⟩

/-- `PingReq` (zero-payload marker). -/
structure PingReq where
deriving DecidableEq, Repr

/-- Bytes appended by `PingReq::encode`: nothing. -/
def PingReq.encode (_ : PingReq) : Bytes := []

/-- `PingReq::encoded_len`. -/
def PingReq.encodedLen (_ : PingReq) : Nat := 0

/-- `PingReq::decode`: accepts any payload. -/
def PingReq.decode (_ : Bytes) : Except DecodeError PingReq := .ok ⟨⟩

/-- `PingResp` (zero-payload marker). -/
structure PingResp where
deriving DecidableEq, Repr

/-- Bytes appended by `PingResp::encode`: nothing. -/
def PingResp.encode (_ : PingResp) : Bytes := []

/-- `PingResp::encoded_len`. -/
def PingResp.encodedLen (_ : PingResp) : Nat := 0

/-- `PingResp::decode`: accepts any payload. -/
def PingResp.decode (_ : Bytes) : Except DecodeError PingResp := .ok ⟨⟩

/-- `Disconnect` (zero-payload marker). -/
structure Disconnect where
deriving DecidableEq, Repr

/-- Bytes appended by `Disconnect::encode`: nothing. -/
def Disconnect.encode (_ : Disconnect) : Bytes := []

/-- `Disconnect::encoded_len`. -/
def Disconnect.encodedLen (_ : Disconnect) : Nat := 0

/-- `Disconnect::decode`: accepts any payload. -/
def Disconnect.decode (_ : Bytes) : Except DecodeError Disconnect := .ok ⟨⟩

/-- The `Packet` sum type over the nine payload variants. -/
inductive Packet where
  | Connect (p : Udd.Connect)
  | ConnAck (p : Udd.ConnAck)
  | Publish (p : Udd.Publish)
  | PubAck (p : Udd.PubAck)
  | Subscribe (p : Udd.Subscribe)
  | SubAck (p : Udd.SubAck)
  | PingReq (p : Udd.PingReq)
  | PingResp (p : Udd.PingResp)
  | Disconnect (p : Udd.Disconnect)
deriving DecidableEq, Repr

/-- `Packet::msg_type`. -/
def Packet.msgType : Packet → MessageType
  | .Connect _ => .Connect
  | .ConnAck _ => .ConnAck
  | .Publish _ => .Publish
  | .PubAck _ => .PubAck
  | .Subscribe _ => .Subscribe
  | .SubAck _ => .SubAck
  | .PingReq _ => .PingReq
  | .PingResp _ => .PingResp
  | .Disconnect _ => .Disconnect

/-- Dispatch of `encode` over the active variant (the `match` in
`UdpFrame::encode`). -/
def Packet.encode : Packet → Bytes
  | .Connect p => p.encode
  | .ConnAck p => p.encode
  | .Publish p => p.encode
  | .PubAck p => p.encode
  | .Subscribe p => p.encode
  | .SubAck p => p.encode
  | .PingReq p => p.encode
  | .PingResp p => p.encode
  | .Disconnect p => p.encode

/-- `UdpFrame::packet_payload_len`: dispatch of `encoded_len`. -/
def Packet.encodedLen : Packet → Nat
  | .Connect p => p.encodedLen
  | .ConnAck p => p.encodedLen
  | .Publish p => p.encodedLen
  | .PubAck p => p.encodedLen
  | .Subscribe p => p.encodedLen
  | .SubAck p => p.encodedLen
  | .PingReq p => p.encodedLen
  | .PingResp p => p.encodedLen
  | .Disconnect p => p.encodedLen

/-- `UdpFrame`: wire format `| Length (1) | Type (1) | MsgID (2) | Payload |`. -/
structure UdpFrame where
  msg_id : Nat
  packet : Packet
deriving DecidableEq, Repr

/-- `UdpFrame::HEADER_LEN`. -/
def UdpFrame.headerLen : Nat := 4

/-- `UdpFrame::encode`: length byte (`total_len as u8`), type byte, big-endian
msg_id, then the packet payload. -/
def UdpFrame.encode (f : UdpFrame) : Bytes :=
  ((UdpFrame.headerLen + f.packet.encodedLen) % 256)
    :: f.packet.msgType.toByte
    :: (u16be f.msg_id ++ f.packet.encode)

/-- The Rust slice `&buf[s..e]`: `none` models the panic raised when
`s > e` or `e > buf.len()`. -/
def sliceChecked (buf : Bytes) (s e : Nat) : Option Bytes :=
  if s ≤ e ∧ e ≤ buf.length then some ((buf.take e).drop s) else none

/-- The per-variant dispatch inside `UdpFrame::decode` (the
`match msg_type` block): decode the payload slice as the named variant. -/
def decodePayload (msg_type : MessageType) (payload : Bytes) :
    Except DecodeError Packet :=
  match msg_type with
  | .Connect =>
    match Connect.decode payload with
    | .error e => .error e
    | .ok p => .ok (.Connect p)
  | .ConnAck =>
    match ConnAck.decode payload with
    | .error e => .error e
    | .ok p => .ok (.ConnAck p)
  | .Publish =>
    match Publish.decode payload with
    | .error e => .error e
    | .ok p => .ok (.Publish p)
  | .PubAck =>
    match PubAck.decode payload with
    | .error e => .error e
    | .ok p => .ok (.PubAck p)
  | .Subscribe =>
    match Subscribe.decode payload with
    | .error e => .error e
    | .ok p => .ok (.Subscribe p)
  | .SubAck =>
    match SubAck.decode payload with
    | .error e => .error e
    | .ok p => .ok (.SubAck p)
  | .PingReq =>
    match PingReq.decode payload with
    | .error e => .error e
    | .ok p => .ok (.PingReq p)
  | .PingResp =>
    match PingResp.decode payload with
    | .error e => .error e
    | .ok p => .ok (.PingResp p)
  | .Disconnect =>
    match Disconnect.decode payload with
    | .error e => .error e
    | .ok p => .ok (.Disconnect p)

/-- `UdpFrame::decode`.  `none` models a Rust panic (reached via
`&buf[4..length]` when the declared length is below the 4-byte header);
`some` models normal return of `Result<UdpFrame, DecodeError>`. -/
def UdpFrame.decode (buf : Bytes) : Option (Except DecodeError UdpFrame) :=
  if buf.length < UdpFrame.headerLen then
    some (.error (.BufferTooShort UdpFrame.headerLen buf.length))
  else
    let length := buf.getD 0 0
    if buf.length < length then
      some (.error (.BufferTooShort length buf.length))
    else
      match MessageType.tryFrom (buf.getD 1 0) with
      | .error e => some (.error e)
      | .ok msg_type =>
        let msg_id := buf.getD 2 0 * 256 + buf.getD 3 0
        match sliceChecked buf UdpFrame.headerLen length with
        | none => none
        | some payload =>
          match decodePayload msg_type payload with
          | .error e => some (.error e)
          | .ok p => some (.ok ⟨msg_id, p⟩)

/-! ## Well-formedness of constructible Rust values

A Rust `Connect`/`Publish`/`Subscribe` value carries `String` fields (always
valid UTF-8) and `u16` fields (always `< 65536`).  `wf` states exactly those
type invariants for the embedded packets. -/

/-- Invariant of a Rust `String` field: valid UTF-8 content.  (The `< 65536`
bound on its byte length is a separate concern derived from the frame size
bound where needed.) -/
def strWf (s : Bytes) : Bool := utf8Valid s

/-- Type invariants of a constructible Rust `Connect` value. -/
def Connect.wf (c : Connect) : Bool :=
  strWf c.client_id && decide (c.keep_alive < 65536) &&
    (match c.username with | some u => strWf u | none => true)

/-- Type invariants of a constructible Rust packet value. -/
def Packet.wf : Packet → Bool
  | .Connect c => c.wf
  | .ConnAck _ => true
  | .Publish p => strWf p.topic
  | .PubAck _ => true
  | .Subscribe s => s.filters.all (fun f => strWf f.topic)
  | .SubAck _ => true
  | .PingReq _ => true
  | .PingResp _ => true
  | .Disconnect _ => true

/-- The packet kinds named by the round-trip law: Connect, Publish, Subscribe
and the four zero-payload variants. -/
def Packet.c1Kind : Packet → Bool
  | .ConnAck _ => false
  | .SubAck _ => false
  | _ => true

/-! ## Encoded lengths -/

lemma writeString_length (s : Bytes) : (writeString s).length = 2 + s.length := by
  simp [writeString, u16be]; ring

lemma encFilters_length (fs : List SubscribeFilter) :
    (encFilters fs).length = (fs.map (fun f => 2 + f.topic.length + 1)).sum := by
  induction fs with
  | nil => rfl
  | cons f fs ih => simp [encFilters, writeString_length, ih]; ring

lemma Connect.encode_length (c : Connect) : c.encode.length = c.encodedLen := by
  obtain ⟨cid, ka, cs, u, pw⟩ := c
  cases u <;> cases pw <;>
    simp [Connect.encode, Connect.encodedLen, writeString, u16be] <;> ring

/-- `encoded_len` agrees with the number of bytes `encode` appends, for every
packet variant. -/
lemma Packet.encodedLen_eq (p : Packet) : p.encodedLen = p.encode.length := by
  cases p with
  | Connect c => exact (Connect.encode_length c).symm
  | ConnAck c => simp [Packet.encodedLen, Packet.encode, ConnAck.encodedLen, ConnAck.encode]
  | Publish p =>
    simp [Packet.encodedLen, Packet.encode, Publish.encodedLen, Publish.encode,
      writeString_length]
    ring
  | PubAck p => rfl
  | Subscribe s =>
    simp [Packet.encodedLen, Packet.encode, Subscribe.encodedLen, Subscribe.encode,
      encFilters_length]
    ring
  | SubAck s =>
    simp [Packet.encodedLen, Packet.encode, SubAck.encodedLen, SubAck.encode]
    ring
  | PingReq p => rfl
  | PingResp p => rfl
  | Disconnect p => rfl

/-! ## Positional read lemmas

The decoders read at numeric offsets into one flat buffer.  These lemmas
evaluate each primitive read when the buffer is presented as
`before ++ field ++ after` with the offset equal to `before.length`. -/

lemma getD_at (buf a : Bytes) (x : Nat) (b : Bytes) (off : Nat)
    (hbuf : buf = a ++ x :: b) (hoff : off = a.length) : buf.getD off 0 = x := by
  subst hbuf hoff
  rw [List.getD_append_right _ _ _ _ (le_refl _)]
  simp

lemma readU16_at (buf a : Bytes) (v : Nat) (b : Bytes) (off : Nat)
    (hbuf : buf = a ++ u16be v ++ b) (hoff : off = a.length) (hv : v < 65536) :
    readU16 buf off = .ok v := by
  have hlen : buf.length = a.length + 2 + b.length := by
    simp [hbuf, u16be]; ring
  have h0 : buf.getD off 0 = v / 256 % 256 :=
    getD_at buf a _ (v % 256 :: b) off (by simp [hbuf, u16be]) hoff
  have h1 : buf.getD (off + 1) 0 = v % 256 :=
    getD_at buf (a ++ [v / 256 % 256]) _ b (off + 1)
      (by simp [hbuf, u16be]) (by simp [hoff])
  unfold readU16
  rw [if_neg (by omega), h0, h1]
  have hdiv : v / 256 < 256 := by omega
  rw [Nat.mod_eq_of_lt hdiv]
  rw [Nat.mul_comm]
  rw [Nat.div_add_mod]

lemma sliceList_at (buf a s b : Bytes) (st en : Nat)
    (hbuf : buf = a ++ s ++ b) (hst : st = a.length) (hen : en = a.length + s.length) :
    sliceList buf st en = s := by
  subst hbuf hst hen
  unfold sliceList
  rw [← List.length_append a s, List.take_left, List.drop_left]

lemma drop_at (buf a b : Bytes) (off : Nat) (hbuf : buf = a ++ b)
    (hoff : off = a.length) : buf.drop off = b := by
  subst hbuf hoff
  exact List.drop_left a b

lemma readString_at (buf a s b : Bytes) (off : Nat)
    (hbuf : buf = a ++ writeString s ++ b) (hoff : off = a.length)
    (hs : s.length < 65536) (hv : utf8Valid s = true) :
    readString buf off = .ok (s, off + 2 + s.length) := by
  have h16 : readU16 buf off = .ok s.length :=
    readU16_at buf a s.length (s ++ b) off
      (by simp [hbuf, writeString, List.append_assoc]) hoff hs
  have hlen : buf.length = a.length + 2 + s.length + b.length := by
    simp [hbuf, writeString, u16be]; ring
  have hsl : sliceList buf (off + 2) (off + 2 + s.length) = s :=
    sliceList_at buf (a ++ u16be s.length) s b (off + 2) (off + 2 + s.length)
      (by simp [hbuf, writeString, List.append_assoc])
      (by simp [hoff, u16be]) (by simp [hoff, u16be]; try ring)
  unfold readString
  rw [h16]
  simp only []
  rw [if_neg (by omega), hsl, hv]
  simp

/-! ## Enumeration inverses -/

lemma messageType_tryFrom_toByte (mt : MessageType) :
    MessageType.tryFrom mt.toByte = .ok mt := by cases mt <;> rfl

lemma qos_tryFrom_toByte (q : QoS) : QoS.tryFrom q.toByte = .ok q := by
  cases q <;> rfl

lemma connectReturnCode_tryFrom_toByte (rc : ConnectReturnCode) :
    ConnectReturnCode.tryFrom rc.toByte = .ok rc := by cases rc <;> rfl

lemma subAckReturnCode_tryFrom_toByte (rc : SubAckReturnCode) :
    SubAckReturnCode.tryFrom rc.toByte = .ok rc := by cases rc <;> rfl

/-! ## Per-packet decode-of-encode lemmas -/

lemma Connect.flags_bits (c : Connect) :
    (c.flags &&& 0x02 != 0) = c.clean_session ∧
    (c.flags &&& 0x80 != 0) = c.username.isSome ∧
    (c.flags &&& 0x40 != 0) = c.password.isSome := by
  obtain ⟨_, _, cs, u, pw⟩ := c
  cases cs <;> cases u <;> cases pw <;> simp [Connect.flags] <;> decide

lemma connect_decode_encode (c : Connect) (hwf : c.wf = true)
    (hlen : c.encodedLen ≤ 251) : Connect.decode c.encode = .ok c := by
  obtain ⟨cid, ka, cs, u, pw⟩ := c
  obtain ⟨hb2, hb80, hb40⟩ := Connect.flags_bits ⟨cid, ka, cs, u, pw⟩
  simp only [Connect.wf, strWf, Bool.and_eq_true, decide_eq_true_eq] at hwf
  simp only [Connect.encodedLen] at hlen
  cases u with
  | some uu =>
    cases pw with
    | some pp =>
      simp only [] at hlen hwf
      obtain ⟨⟨hcidv, hka⟩, huuv⟩ := hwf
      have hcidl : cid.length < 65536 := by omega
      have huul : uu.length < 65536 := by omega
      have hppl : pp.length < 65536 := by omega
      have hblen : (Connect.encode ⟨cid, ka, cs, some uu, some pp⟩).length
          = 9 + cid.length + uu.length + pp.length := by
        simp [Connect.encode, writeString, u16be]; ring
      have hF : (Connect.encode ⟨cid, ka, cs, some uu, some pp⟩).getD 0 0
          = Connect.flags ⟨cid, ka, cs, some uu, some pp⟩ := rfl
      have h16 : readU16 (Connect.encode ⟨cid, ka, cs, some uu, some pp⟩) 1 = .ok ka :=
        readU16_at _ [Connect.flags ⟨cid, ka, cs, some uu, some pp⟩] ka
          (writeString cid ++ writeString uu ++ (u16be pp.length ++ pp)) 1
          (by simp [Connect.encode, List.append_assoc]) rfl hka
      have hstr1 : readString (Connect.encode ⟨cid, ka, cs, some uu, some pp⟩) 3
          = .ok (cid, 3 + 2 + cid.length) :=
        readString_at _ ([Connect.flags ⟨cid, ka, cs, some uu, some pp⟩] ++ u16be ka) cid
          (writeString uu ++ (u16be pp.length ++ pp)) 3
          (by simp [Connect.encode, List.append_assoc]) (by simp [u16be]) hcidl hcidv
      have hstr2 : readString (Connect.encode ⟨cid, ka, cs, some uu, some pp⟩)
            (3 + 2 + cid.length)
          = .ok (uu, 3 + 2 + cid.length + 2 + uu.length) :=
        readString_at _
          ([Connect.flags ⟨cid, ka, cs, some uu, some pp⟩] ++ u16be ka ++ writeString cid) uu
          (u16be pp.length ++ pp) (3 + 2 + cid.length)
          (by simp [Connect.encode, List.append_assoc])
          (by simp [u16be, writeString_length]; ring) huul huuv
      have hp16 : readU16 (Connect.encode ⟨cid, ka, cs, some uu, some pp⟩)
            (3 + 2 + cid.length + 2 + uu.length) = .ok pp.length :=
        readU16_at _
          ([Connect.flags ⟨cid, ka, cs, some uu, some pp⟩] ++ u16be ka ++ writeString cid
            ++ writeString uu) pp.length pp (3 + 2 + cid.length + 2 + uu.length)
          (by simp [Connect.encode, List.append_assoc])
          (by simp [u16be, writeString_length]; ring) hppl
      have hslice : sliceList (Connect.encode ⟨cid, ka, cs, some uu, some pp⟩)
            (3 + 2 + cid.length + 2 + uu.length + 2)
            (3 + 2 + cid.length + 2 + uu.length + 2 + pp.length) = pp :=
        sliceList_at _
          ([Connect.flags ⟨cid, ka, cs, some uu, some pp⟩] ++ u16be ka ++ writeString cid
            ++ writeString uu ++ u16be pp.length) pp [] _ _
          (by simp [Connect.encode, List.append_assoc])
          (by simp [u16be, writeString_length]; ring)
          (by simp [u16be, writeString_length]; ring)
      simp only [Connect.decode, hblen, hF, hb2, hb80, hb40, h16, hstr1, hstr2, hp16,
        hslice, Option.isSome_some, if_true, if_false]
      rw [if_neg (by omega), if_neg (by omega)]
    | none =>
      simp only [] at hlen hwf
      obtain ⟨⟨hcidv, hka⟩, huuv⟩ := hwf
      have hcidl : cid.length < 65536 := by omega
      have huul : uu.length < 65536 := by omega
      have hblen : (Connect.encode ⟨cid, ka, cs, some uu, none⟩).length
          = 7 + cid.length + uu.length := by
        simp [Connect.encode, writeString, u16be]; ring
      have hF : (Connect.encode ⟨cid, ka, cs, some uu, none⟩).getD 0 0
          = Connect.flags ⟨cid, ka, cs, some uu, none⟩ := rfl
      have h16 : readU16 (Connect.encode ⟨cid, ka, cs, some uu, none⟩) 1 = .ok ka :=
        readU16_at _ [Connect.flags ⟨cid, ka, cs, some uu, none⟩] ka
          (writeString cid ++ writeString uu) 1
          (by simp [Connect.encode, List.append_assoc]) rfl hka
      have hstr1 : readString (Connect.encode ⟨cid, ka, cs, some uu, none⟩) 3
          = .ok (cid, 3 + 2 + cid.length) :=
        readString_at _ ([Connect.flags ⟨cid, ka, cs, some uu, none⟩] ++ u16be ka) cid
          (writeString uu) 3
          (by simp [Connect.encode, List.append_assoc]) (by simp [u16be]) hcidl hcidv
      have hstr2 : readString (Connect.encode ⟨cid, ka, cs, some uu, none⟩)
            (3 + 2 + cid.length)
          = .ok (uu, 3 + 2 + cid.length + 2 + uu.length) :=
        readString_at _
          ([Connect.flags ⟨cid, ka, cs, some uu, none⟩] ++ u16be ka ++ writeString cid) uu
          [] (3 + 2 + cid.length)
          (by simp [Connect.encode, List.append_assoc])
          (by simp [u16be, writeString_length]; ring) huul huuv
      simp only [Connect.decode, hblen, hF, hb2, hb80, hb40, h16, hstr1, hstr2,
        Option.isSome_some, Option.isSome_none, if_true, if_false]
      rw [if_neg (by omega)]
      simp
  | none =>
    cases pw with
    | some pp =>
      simp only [] at hlen hwf
      obtain ⟨⟨hcidv, hka⟩, -⟩ := hwf
      have hcidl : cid.length < 65536 := by omega
      have hppl : pp.length < 65536 := by omega
      have hblen : (Connect.encode ⟨cid, ka, cs, none, some pp⟩).length
          = 7 + cid.length + pp.length := by
        simp [Connect.encode, writeString, u16be]; ring
      have hF : (Connect.encode ⟨cid, ka, cs, none, some pp⟩).getD 0 0
          = Connect.flags ⟨cid, ka, cs, none, some pp⟩ := rfl
      have h16 : readU16 (Connect.encode ⟨cid, ka, cs, none, some pp⟩) 1 = .ok ka :=
        readU16_at _ [Connect.flags ⟨cid, ka, cs, none, some pp⟩] ka
          (writeString cid ++ (u16be pp.length ++ pp)) 1
          (by simp [Connect.encode, List.append_assoc]) rfl hka
      have hstr1 : readString (Connect.encode ⟨cid, ka, cs, none, some pp⟩) 3
          = .ok (cid, 3 + 2 + cid.length) :=
        readString_at _ ([Connect.flags ⟨cid, ka, cs, none, some pp⟩] ++ u16be ka) cid
          (u16be pp.length ++ pp) 3
          (by simp [Connect.encode, List.append_assoc]) (by simp [u16be]) hcidl hcidv
      have hp16 : readU16 (Connect.encode ⟨cid, ka, cs, none, some pp⟩)
            (3 + 2 + cid.length) = .ok pp.length :=
        readU16_at _
          ([Connect.flags ⟨cid, ka, cs, none, some pp⟩] ++ u16be ka ++ writeString cid)
          pp.length pp (3 + 2 + cid.length)
          (by simp [Connect.encode, List.append_assoc])
          (by simp [u16be, writeString_length]; ring) hppl
      have hslice : sliceList (Connect.encode ⟨cid, ka, cs, none, some pp⟩)
            (3 + 2 + cid.length + 2) (3 + 2 + cid.length + 2 + pp.length) = pp :=
        sliceList_at _
          ([Connect.flags ⟨cid, ka, cs, none, some pp⟩] ++ u16be ka ++ writeString cid
            ++ u16be pp.length) pp [] _ _
          (by simp [Connect.encode, List.append_assoc])
          (by simp [u16be, writeString_length]; ring)
          (by simp [u16be, writeString_length]; ring)
      simp only [Connect.decode, hblen, hF, hb2, hb80, hb40, h16, hstr1,
        Option.isSome_some, Option.isSome_none, if_true, if_false]
      rw [if_neg (by omega)]
      rw [if_neg Bool.false_ne_true]
      simp only [hp16]
      rw [if_neg (by omega)]
      simp only [hslice]
    | none =>
      simp only [] at hlen hwf
      obtain ⟨⟨hcidv, hka⟩, -⟩ := hwf
      have hcidl : cid.length < 65536 := by omega
      have hblen : (Connect.encode ⟨cid, ka, cs, none, none⟩).length
          = 5 + cid.length := by
        simp [Connect.encode, writeString, u16be]; ring
      have hF : (Connect.encode ⟨cid, ka, cs, none, none⟩).getD 0 0
          = Connect.flags ⟨cid, ka, cs, none, none⟩ := rfl
      have h16 : readU16 (Connect.encode ⟨cid, ka, cs, none, none⟩) 1 = .ok ka :=
        readU16_at _ [Connect.flags ⟨cid, ka, cs, none, none⟩] ka
          (writeString cid) 1
          (by simp [Connect.encode, List.append_assoc]) rfl hka
      have hstr1 : readString (Connect.encode ⟨cid, ka, cs, none, none⟩) 3
          = .ok (cid, 3 + 2 + cid.length) :=
        readString_at _ ([Connect.flags ⟨cid, ka, cs, none, none⟩] ++ u16be ka) cid
          [] 3
          (by simp [Connect.encode, List.append_assoc]) (by simp [u16be]) hcidl hcidv
      simp only [Connect.decode, hblen, hF, hb2, hb80, hb40, h16, hstr1,
        Option.isSome_none, if_true, if_false]
      rw [if_neg (by omega)]
      simp

lemma publish_decode_encode (p : Publish) (hwf : strWf p.topic = true)
    (hlen : p.encodedLen ≤ 251) : Publish.decode p.encode = .ok p := by
  obtain ⟨t, q, r, pl⟩ := p
  simp only [strWf] at hwf
  simp only [Publish.encodedLen] at hlen
  have htl : t.length < 65536 := by omega
  have hblen : (Publish.encode ⟨t, q, r, pl⟩).length = 3 + t.length + pl.length := by
    simp [Publish.encode, writeString, u16be]; ring
  have hF : (Publish.encode ⟨t, q, r, pl⟩).getD 0 0 = Publish.flags ⟨t, q, r, pl⟩ := rfl
  have hq : QoS.tryFrom ((Publish.flags ⟨t, q, r, pl⟩ >>> 1) &&& 3) = .ok q := by
    cases q <;> cases r <;> simp [Publish.flags, QoS.toByte, QoS.tryFrom]
  have hr : (Publish.flags ⟨t, q, r, pl⟩ &&& 1 != 0) = r := by
    cases q <;> cases r <;> simp [Publish.flags, QoS.toByte]
  have hstr : readString (Publish.encode ⟨t, q, r, pl⟩) 1
      = .ok (t, 1 + 2 + t.length) :=
    readString_at _ [Publish.flags ⟨t, q, r, pl⟩] t pl 1
      (by simp [Publish.encode, List.append_assoc]) rfl htl hwf
  have hdrop : (Publish.encode ⟨t, q, r, pl⟩).drop (1 + 2 + t.length) = pl :=
    drop_at _ (Publish.flags ⟨t, q, r, pl⟩ :: writeString t) pl _
      (by simp [Publish.encode]) (by simp [writeString_length]; ring)
  simp only [Publish.decode, hblen, hF, hq, hr, hstr, hdrop]
  rw [if_neg (by omega)]

lemma subscribeLoop_encode (fs : List SubscribeFilter) (pre : Bytes)
    (hwf : ∀ f ∈ fs, strWf f.topic = true)
    (hlen : ∀ f ∈ fs, f.topic.length < 65536) :
    subscribeLoop (pre ++ encFilters fs) pre.length fs.length = .ok fs := by
  induction fs generalizing pre with
  | nil => simp [subscribeLoop, encFilters]
  | cons f fs ih =>
    have hf := hwf f (by simp)
    have hfl := hlen f (by simp)
    have hstr : readString (pre ++ encFilters (f :: fs)) pre.length
        = .ok (f.topic, pre.length + 2 + f.topic.length) :=
      readString_at _ pre f.topic (f.qos.toByte :: encFilters fs) pre.length
        (by simp [encFilters, List.append_assoc]) rfl hfl hf
    have hq : (pre ++ encFilters (f :: fs)).getD (pre.length + 2 + f.topic.length) 0
        = f.qos.toByte :=
      getD_at _ (pre ++ writeString f.topic) _ (encFilters fs) _
        (by simp [encFilters, List.append_assoc]) (by simp [writeString_length]; ring)
    have hblen : (pre ++ encFilters (f :: fs)).length
        = pre.length + 2 + f.topic.length + 1 + (encFilters fs).length := by
      simp [encFilters, writeString, u16be]; ring
    have hrec : subscribeLoop (pre ++ encFilters (f :: fs))
        (pre.length + 2 + f.topic.length + 1) fs.length = .ok fs := by
      have hstep := ih (pre ++ writeString f.topic ++ [f.qos.toByte])
        (fun g hg => hwf g (by simp [hg])) (fun g hg => hlen g (by simp [hg]))
      rw [show pre ++ writeString f.topic ++ [f.qos.toByte] ++ encFilters fs
            = pre ++ encFilters (f :: fs) by simp [encFilters, List.append_assoc],
          show (pre ++ writeString f.topic ++ [f.qos.toByte]).length
            = pre.length + 2 + f.topic.length + 1 by
              simp [writeString_length]; ring] at hstep
      exact hstep
    simp only [List.length_cons, subscribeLoop, hstr, hq, qos_tryFrom_toByte, hrec]
    rw [if_neg (by omega)]

lemma three_mul_length_le (fs : List SubscribeFilter) :
    fs.length * 3 ≤ (fs.map fun f => 2 + f.topic.length + 1).sum := by
  induction fs with
  | nil => simp
  | cons f fs ih =>
    simp only [List.map_cons, List.sum_cons, List.length_cons]
    omega

lemma subscribe_decode_encode (s : Subscribe)
    (hwf : s.filters.all (fun f => strWf f.topic) = true)
    (hlen : s.encodedLen ≤ 251) : Subscribe.decode s.encode = .ok s := by
  obtain ⟨fs⟩ := s
  simp only [List.all_eq_true] at hwf
  simp only [Subscribe.encodedLen] at hlen
  have hsum : ∀ f ∈ fs, 2 + f.topic.length + 1
      ≤ (fs.map fun f => 2 + f.topic.length + 1).sum := by
    intro f hfmem
    exact List.single_le_sum (fun x _ => Nat.zero_le x) _
      (List.mem_map_of_mem _ hfmem)
  have hfl : ∀ f ∈ fs, f.topic.length < 65536 := by
    intro f hfmem
    have := hsum f hfmem
    omega
  have hcount := three_mul_length_le fs
  have hmod : fs.length % 256 = fs.length := Nat.mod_eq_of_lt (by omega)
  have hloop := subscribeLoop_encode fs [fs.length % 256] hwf hfl
  simp only [List.singleton_append, List.length_cons, List.length_nil, hmod] at hloop
  norm_num at hloop
  have hblen : (Subscribe.encode ⟨fs⟩).length = 1 + (encFilters fs).length := by
    simp [Subscribe.encode]; ring
  simp only [Subscribe.decode, Subscribe.encode] at hblen ⊢
  rw [if_neg (by omega)]
  simp only [List.getD_cons_zero, hmod, hloop]

lemma decodePayload_encode (p : Packet) (hwf : p.wf = true) (hkind : p.c1Kind = true)
    (hsize : p.encodedLen ≤ 251) :
    decodePayload p.msgType p.encode = .ok p := by
  cases p with
  | Connect c =>
    simp only [Packet.wf] at hwf
    simp only [Packet.encodedLen] at hsize
    simp only [Packet.msgType, Packet.encode, decodePayload,
      connect_decode_encode c hwf hsize]
  | ConnAck c => simp [Packet.c1Kind] at hkind
  | Publish q =>
    simp only [Packet.wf] at hwf
    simp only [Packet.encodedLen] at hsize
    simp only [Packet.msgType, Packet.encode, decodePayload,
      publish_decode_encode q hwf hsize]
  | PubAck c => rfl
  | Subscribe t =>
    simp only [Packet.wf] at hwf
    simp only [Packet.encodedLen] at hsize
    simp only [Packet.msgType, Packet.encode, decodePayload,
      subscribe_decode_encode t hwf hsize]
  | SubAck t => simp [Packet.c1Kind] at hkind
  | PingReq c => rfl
  | PingResp c => rfl
  | Disconnect c => rfl

lemma frame_roundtrip (M : Nat) (p : Packet) (hM : M < 65536) (hwf : p.wf = true)
    (hkind : p.c1Kind = true) (hsize : UdpFrame.headerLen + p.encodedLen ≤ 255) :
    UdpFrame.decode (UdpFrame.encode ⟨M, p⟩) = some (.ok ⟨M, p⟩) := by
  rw [show UdpFrame.headerLen = 4 from rfl] at hsize
  have hplen := Packet.encodedLen_eq p
  have hblen : (UdpFrame.encode ⟨M, p⟩).length = 4 + p.encodedLen := by
    simp [UdpFrame.encode, u16be]
    omega
  have htot : (UdpFrame.headerLen + p.encodedLen) % 256 = 4 + p.encodedLen := by
    rw [show UdpFrame.headerLen = 4 from rfl]
    exact Nat.mod_eq_of_lt (by omega)
  have h0 : (UdpFrame.encode ⟨M, p⟩).getD 0 0 = 4 + p.encodedLen := by
    simp only [UdpFrame.encode, List.getD_cons_zero]
    exact htot
  have h1 : (UdpFrame.encode ⟨M, p⟩).getD 1 0 = p.msgType.toByte := rfl
  have h2 : (UdpFrame.encode ⟨M, p⟩).getD 2 0 = M / 256 % 256 :=
    getD_at _ [(UdpFrame.headerLen + Packet.encodedLen p) % 256,
        MessageType.toByte (Packet.msgType p)] _ (M % 256 :: p.encode) 2
      (by simp [UdpFrame.encode, u16be]) (by simp)
  have h3 : (UdpFrame.encode ⟨M, p⟩).getD 3 0 = M % 256 :=
    getD_at _ [(UdpFrame.headerLen + Packet.encodedLen p) % 256,
        MessageType.toByte (Packet.msgType p), M / 256 % 256] _ p.encode 3
      (by simp [UdpFrame.encode, u16be]) (by simp)
  have hdiv : M / 256 % 256 = M / 256 := Nat.mod_eq_of_lt (by omega)
  have hid : M / 256 * 256 + M % 256 = M := by omega
  have hslice : sliceChecked (UdpFrame.encode ⟨M, p⟩) UdpFrame.headerLen
      (4 + p.encodedLen) = some p.encode := by
    unfold sliceChecked
    rw [if_pos ⟨by simp [UdpFrame.headerLen], by rw [hblen]⟩]
    rw [← hblen, List.take_length]
    exact congrArg some (drop_at _ [(UdpFrame.headerLen + Packet.encodedLen p) % 256,
        MessageType.toByte (Packet.msgType p), M / 256 % 256, M % 256] p.encode _
      (by simp [UdpFrame.encode, u16be]) (by simp [UdpFrame.headerLen]))
  have hpd : decodePayload p.msgType p.encode = .ok p :=
    decodePayload_encode p hwf hkind (by omega)
  have hni1 : ¬ ((UdpFrame.encode ⟨M, p⟩).length < UdpFrame.headerLen) := by
    rw [hblen, show UdpFrame.headerLen = 4 from rfl]
    omega
  have hni2 : ¬ ((UdpFrame.encode ⟨M, p⟩).length < 4 + p.encodedLen) := by
    rw [hblen]
    omega
  simp only [UdpFrame.decode, h0, h1, messageType_tryFrom_toByte, h2, h3, hdiv, hid,
    hslice, hpd, hni1, hni2, if_false]

/-- C5: decode reads only the first declared-length bytes: appending any
byte sequence to a buffer that decodes `Ok` leaves the result unchanged. -/
theorem c5_trailing_bytes_ignored (b e : Bytes) (f : UdpFrame)
    (h : UdpFrame.decode b = some (.ok f)) :
    UdpFrame.decode (b ++ e) = some (.ok f) := by
  rw [UdpFrame.decode] at h
  simp only [UdpFrame.headerLen] at h
  split at h
  · simp at h
  rename_i h4
  split at h
  · simp at h
  rename_i hlen
  split at h
  · simp at h
  rename_i mt hty
  split at h
  · exact absurd h (by simp)
  rename_i payload hsl
  split at h
  · simp at h
  rename_i pkt hpd
  simp only [Option.some.injEq, Except.ok.injEq] at h
  subst h
  rw [sliceChecked] at hsl
  split at hsl
  case isFalse => simp at hsl
  rename_i hc
  simp only [Option.some.injEq] at hsl
  obtain ⟨hc1, hc2⟩ := hc
  have hg0 : (b ++ e).getD 0 0 = b.getD 0 0 :=
    List.getD_append _ _ _ _ (by omega)
  have hg1 : (b ++ e).getD 1 0 = b.getD 1 0 :=
    List.getD_append _ _ _ _ (by omega)
  have hg2 : (b ++ e).getD 2 0 = b.getD 2 0 :=
    List.getD_append _ _ _ _ (by omega)
  have hg3 : (b ++ e).getD 3 0 = b.getD 3 0 :=
    List.getD_append _ _ _ _ (by omega)
  have hsl2 : sliceChecked (b ++ e) 4 (b.getD 0 0) = some payload := by
    rw [sliceChecked, if_pos ⟨hc1, by simp only [List.length_append]; omega⟩]
    rw [List.take_append_of_le_length hc2, hsl]
  rw [UdpFrame.decode]
  simp only [UdpFrame.headerLen, List.length_append, hg0, hg1, hg2, hg3, hty, hsl2, hpd]
  simp only [List.getD_eq_getElem?_getD] at hlen hc1 hc2 ⊢
  rw [if_neg (by omega), if_neg (by omega)]


lemma qos_tryFrom_invalid (v : Nat) (h : 2 < v) : QoS.tryFrom v = .error v := by
  match v, h with
  | n+3, _ => rfl

lemma connectReturnCode_tryFrom_invalid (v : Nat) (h : 5 < v) :
    ConnectReturnCode.tryFrom v = .error v := by
  match v, h with
  | n+6, _ => rfl

lemma subAckReturnCode_tryFrom_invalid (v : Nat)
    (h : v ∉ ([0, 1, 2, 128] : List Nat)) :
    SubAckReturnCode.tryFrom v = .error v := by
  simp only [List.mem_cons, List.not_mem_nil, or_false, not_or] at h
  obtain ⟨h0, h1, h2, h128⟩ := h
  unfold SubAckReturnCode.tryFrom
  split
  · exact absurd rfl h0
  · exact absurd rfl h1
  · exact absurd rfl h2
  · exact absurd rfl h128
  · rfl

lemma mapCodes_invalid (l : List Nat) (i : Nat) (hi : i < l.length)
    (hpre : ∀ j, j < i → l.getD j 0 ∈ ([0, 1, 2, 128] : List Nat))
    (hbad : l.getD i 0 ∉ ([0, 1, 2, 128] : List Nat)) :
    mapCodes l = .error (.InvalidReturnCode (l.getD i 0)) := by
  induction l generalizing i with
  | nil => simp at hi
  | cons b rest ih =>
    cases i with
    | zero =>
      simp only [List.getD_cons_zero] at hbad ⊢
      rw [mapCodes, subAckReturnCode_tryFrom_invalid b hbad]
    | succ i =>
      have hb := hpre 0 (Nat.succ_pos _)
      simp only [List.getD_cons_zero] at hb
      have hrec := ih i (by simpa using hi)
        (fun j hj => by simpa using hpre (j + 1) (by omega))
        (by simpa using hbad)
      simp only [List.getD_cons_succ]
      fin_cases hb <;> simp [mapCodes, SubAckReturnCode.tryFrom, hrec]

lemma sliceList_length (buf : Bytes) (s e : Nat) (he : e ≤ buf.length) :
    (sliceList buf s e).length = e - s := by
  simp [sliceList]
  omega

lemma sliceList_getD (buf : Bytes) (s e j : Nat) (hj : s + j < e)
    (he : e ≤ buf.length) :
    (sliceList buf s e).getD j 0 = buf.getD (s + j) 0 := by
  simp only [sliceList, List.getD_eq_getElem?_getD, List.getElem?_drop,
    List.getElem?_take]
  rw [if_pos (by omega)]

lemma subAck_decode_invalid (buf : Bytes) (i : Nat)
    (hb : buf.length ≠ 0)
    (hcnt : 1 + buf.getD 0 0 ≤ buf.length)
    (hi : i < buf.getD 0 0)
    (hpre : ∀ j, j < i → buf.getD (1 + j) 0 ∈ ([0, 1, 2, 128] : List Nat))
    (hbad : buf.getD (1 + i) 0 ∉ ([0, 1, 2, 128] : List Nat)) :
    SubAck.decode buf = .error (.InvalidReturnCode (buf.getD (1 + i) 0)) := by
  have hlen : (sliceList buf 1 (1 + buf.getD 0 0)).length = buf.getD 0 0 := by
    rw [sliceList_length buf 1 (1 + buf.getD 0 0) hcnt]
    omega
  have hget : ∀ j, j < buf.getD 0 0 →
      (sliceList buf 1 (1 + buf.getD 0 0)).getD j 0 = buf.getD (1 + j) 0 := by
    intro j hj
    exact sliceList_getD buf 1 (1 + buf.getD 0 0) j (by omega) hcnt
  have hmap : mapCodes (sliceList buf 1 (1 + buf.getD 0 0))
      = .error (.InvalidReturnCode (buf.getD (1 + i) 0)) := by
    rw [show (.InvalidReturnCode (buf.getD (1 + i) 0) : DecodeError)
        = .InvalidReturnCode ((sliceList buf 1 (1 + buf.getD 0 0)).getD i 0) by
      rw [hget i hi]]
    exact mapCodes_invalid _ i (by omega)
      (fun j hj => by rw [hget j (by omega)]; exact hpre j hj)
      (by rw [hget i hi]; exact hbad)
  rw [SubAck.decode, if_neg hb, if_neg (by omega), hmap]



lemma qos_tryFrom_le (v : Nat) (h : v ≤ 2) : ∃ q, QoS.tryFrom v = .ok q := by
  interval_cases v
  · exact ⟨.AtMostOnce, rfl⟩
  · exact ⟨.AtLeastOnce, rfl⟩
  · exact ⟨.ExactlyOnce, rfl⟩

lemma subscribeLoop_invalid (buf : Bytes) (i : Nat) :
    ∀ (n : Nat) (o m : Nat → Nat) (t : Nat → Bytes),
    i < n →
    (∀ j, j ≤ i → readString buf (o j) = .ok (t j, m j)) →
    (∀ j, j ≤ i → m j < buf.length) →
    (∀ j, j < i → buf.getD (m j) 0 ≤ 2) →
    (∀ j, j < i → o (j + 1) = m j + 1) →
    2 < buf.getD (m i) 0 →
    subscribeLoop buf (o 0) n = .error (.InvalidQoS (buf.getD (m i) 0)) := by
  induction i with
  | zero =>
    intro n o m t hn hread hm hvalid hnext hbad
    obtain ⟨k, rfl⟩ : ∃ k, n = k + 1 := ⟨n - 1, by omega⟩
    simp only [subscribeLoop, hread 0 (by omega)]
    simp only [if_neg (show ¬ (buf.length ≤ m 0) from by have := hm 0 (by omega); omega),
      qos_tryFrom_invalid _ hbad]
  | succ i ih =>
    intro n o m t hn hread hm hvalid hnext hbad
    obtain ⟨k, rfl⟩ : ∃ k, n = k + 1 := ⟨n - 1, by omega⟩
    obtain ⟨q, hq⟩ := qos_tryFrom_le _ (hvalid 0 (by omega))
    have hrec := ih k (fun j => o (j + 1)) (fun j => m (j + 1)) (fun j => t (j + 1))
      (by omega) (fun j hj => hread (j + 1) (by omega)) (fun j hj => hm (j + 1) (by omega))
      (fun j hj => hvalid (j + 1) (by omega)) (fun j hj => hnext (j + 1) (by omega))
      hbad
    simp only [] at hrec
    rw [hnext 0 (by omega)] at hrec
    simp only [subscribeLoop, hread 0 (by omega)]
    simp only [if_neg (show ¬ (buf.length ≤ m 0) from by have := hm 0 (by omega); omega),
      hq, hrec]

lemma subscribe_decode_invalid_general (buf : Bytes) (i : Nat) (o m : Nat → Nat)
    (t : Nat → Bytes)
    (hb : buf.length ≠ 0)
    (hi : i < buf.getD 0 0)
    (ho0 : o 0 = 1)
    (hread : ∀ j, j ≤ i → readString buf (o j) = .ok (t j, m j))
    (hm : ∀ j, j ≤ i → m j < buf.length)
    (hvalid : ∀ j, j < i → buf.getD (m j) 0 ≤ 2)
    (hnext : ∀ j, j < i → o (j + 1) = m j + 1)
    (hbad : 2 < buf.getD (m i) 0) :
    Subscribe.decode buf = .error (.InvalidQoS (buf.getD (m i) 0)) := by
  have hloop := subscribeLoop_invalid buf i (buf.getD 0 0) o m t hi hread hm
    hvalid hnext hbad
  rw [ho0] at hloop
  rw [Subscribe.decode, if_neg hb, hloop]


lemma publish_decode_invalid (buf : Bytes) (hb : buf.length ≠ 0)
    (hbad : (buf.getD 0 0 >>> 1) &&& 0x03 = 3) :
    Publish.decode buf = .error (.InvalidQoS 3) := by
  rw [Publish.decode, if_neg hb]
  simp only [hbad, qos_tryFrom_invalid 3 (by omega)]

lemma connAck_decode_invalid (buf : Bytes) (hb : 2 ≤ buf.length)
    (hbad : 5 < buf.getD 1 0) :
    ConnAck.decode buf = .error (.InvalidReturnCode (buf.getD 1 0)) := by
  rw [ConnAck.decode, if_neg (by omega),
    connectReturnCode_tryFrom_invalid _ hbad]


lemma Connect.decode_flag_bits (buf : Bytes) (c : Connect)
    (h : Connect.decode buf = .ok c) :
    c.clean_session = (buf.getD 0 0 &&& 0x02 != 0) ∧
    c.username.isSome = (buf.getD 0 0 &&& 0x80 != 0) ∧
    c.password.isSome = (buf.getD 0 0 &&& 0x40 != 0) := by
  rw [Connect.decode] at h
  split at h
  · simp at h
  simp only [] at h
  split at h
  · simp at h
  rename_i ka h16
  split at h
  · simp at h
  rename_i cid off0 hsp
  cases hU : (buf.getD 0 0 &&& 0x80 != 0) with
  | false =>
    rw [hU, if_neg Bool.false_ne_true] at h
    simp only [] at h
    cases hP : (buf.getD 0 0 &&& 0x40 != 0) with
    | false =>
      rw [hP, if_neg Bool.false_ne_true] at h
      simp only [Except.ok.injEq] at h
      subst h
      simp [hU, hP]
    | true =>
      rw [hP, if_pos rfl] at h
      split at h
      · simp at h
      rename_i plen hplen
      split at hplen
      · simp at hplen
      rename_i len h16p
      split at hplen
      · simp at hplen
      simp only [Except.ok.injEq] at hplen
      subst hplen
      simp only [Except.ok.injEq] at h
      subst h
      simp [hU, hP]
  | true =>
    rw [hU, if_pos rfl] at h
    split at h
    · simp at h
    rename_i u off1 hu
    have huSome : u.isSome = true := by
      split at hu
      · simp at hu
      simp only [Except.ok.injEq, Prod.mk.injEq] at hu
      obtain ⟨hu1, -⟩ := hu
      subst hu1
      rfl
    cases hP : (buf.getD 0 0 &&& 0x40 != 0) with
    | false =>
      rw [hP, if_neg Bool.false_ne_true] at h
      simp only [Except.ok.injEq] at h
      subst h
      simp [hU, hP, huSome]
    | true =>
      rw [hP, if_pos rfl] at h
      split at h
      · simp at h
      rename_i plen hplen
      split at hplen
      · simp at hplen
      rename_i len h16p
      split at hplen
      · simp at hplen
      simp only [Except.ok.injEq] at hplen
      subst hplen
      simp only [Except.ok.injEq] at h
      subst h
      simp [hU, hP, huSome]

lemma frame_decode_zero_payload (l t m1 m2 : Nat) (extra : Bytes)
    (mt : MessageType) (pk : Packet) (h4 : 4 ≤ l) (hlen : l ≤ 4 + extra.length)
    (hty : MessageType.tryFrom t = .ok mt)
    (hpd : ∀ payload : Bytes, decodePayload mt payload = .ok pk) :
    UdpFrame.decode (l :: t :: m1 :: m2 :: extra)
      = some (.ok ⟨m1 * 256 + m2, pk⟩) := by
  rw [UdpFrame.decode]
  simp only [UdpFrame.headerLen, List.length_cons, List.getD_cons_zero,
    List.getD_cons_succ, hty, hpd]
  rw [if_neg (by omega), if_neg (by omega)]
  rw [sliceChecked, if_pos ⟨h4, by simp only [List.length_cons]; omega⟩]

/-! ## Claim theorems -/

set_option maxRecDepth 4000 in
/-- C1, counterexample: the round-trip law fails as universally stated over
all constructible packets.  A Publish with a 252-byte payload encodes to a
259-byte frame whose single length byte wraps to 3; decoding that frame
reaches the slice `&buf[4..3]`, which panics in Rust (modelled `none`), so
decode does not return the original frame. -/
theorem c1_roundtrip_counterexample :
    UdpFrame.decode (UdpFrame.encode
        ⟨0, .Publish ⟨[], .AtMostOnce, false, List.replicate 252 0⟩⟩)
      ≠ some (.ok ⟨0, .Publish ⟨[], .AtMostOnce, false, List.replicate 252 0⟩⟩) := by
  have hnone : UdpFrame.decode (UdpFrame.encode
      ⟨0, .Publish ⟨[], .AtMostOnce, false, List.replicate 252 0⟩⟩) = none := by rfl
  rw [hnone]
  simp

/-- C1 (amended): for every constructible packet of kind Connect, Publish,
Subscribe or a zero-payload variant whose total encoded frame length
(4-byte header plus payload) is at most 255, and every 16-bit msg_id,
`UdpFrame::decode` of `UdpFrame::encode` returns `Ok` of a structurally
equal frame.  (`wf` is the Rust type invariant of a constructible value:
string fields are valid UTF-8 and `keep_alive` fits in `u16`.) -/
theorem c1_roundtrip_amended (M : Nat) (p : Packet) (hM : M < 65536)
    (hwf : p.wf = true) (hkind : p.c1Kind = true)
    (hsize : UdpFrame.headerLen + p.encodedLen ≤ 255) :
    UdpFrame.decode (UdpFrame.encode ⟨M, p⟩) = some (.ok ⟨M, p⟩) :=
  frame_roundtrip M p hM hwf hkind hsize

/-- Witness for C1 at the Connect packet of the repository's own round-trip
test (client "test-client", keep-alive 120, username "user", password
"pass", msg_id 1). -/
theorem c1_roundtrip_amended_witness :
    UdpFrame.decode (UdpFrame.encode ⟨1, .Connect
        ⟨[116, 101, 115, 116, 45, 99, 108, 105, 101, 110, 116], 120, true,
          some [117, 115, 101, 114], some [112, 97, 115, 115]⟩⟩)
      = some (.ok ⟨1, .Connect
        ⟨[116, 101, 115, 116, 45, 99, 108, 105, 101, 110, 116], 120, true,
          some [117, 115, 101, 114], some [112, 97, 115, 115]⟩⟩) :=
  c1_roundtrip_amended 1 _ (by decide) (by decide) (by decide) (by decide)

/-- C2: for every packet value of each of the nine packet types,
`encoded_len` equals the exact number of bytes `encode` appends. -/
theorem c2_encoded_len_exact (p : Packet) : p.encodedLen = p.encode.length :=
  Packet.encodedLen_eq p

/-- C3: the spec says decode never panics, but on the 4-byte buffer
`[0, 0x01, 0, 0]` (declared length byte 0, smaller than the 4-byte header,
followed by the valid Connect type byte) the code reaches `&buf[4..0]`,
which panics in Rust — modelled as `none`: neither `Ok` nor a structured
`DecodeError`. -/
theorem c3_short_declared_length_panics :
    UdpFrame.decode [0, 0x01, 0, 0] = none := by rfl

/-- C4: frame encode header layout — byte 0 is `4 + encoded_len` wrapped
modulo 256, byte 1 the MessageType discriminant, bytes 2-3 the msg_id in
big-endian order, and the rest exactly the packet payload. -/
theorem c4_frame_header_layout (f : UdpFrame) (hM : f.msg_id < 65536) :
    f.encode.getD 0 0 = (4 + f.packet.encodedLen) % 256 ∧
    f.encode.getD 1 0 = f.packet.msgType.toByte ∧
    f.encode.getD 2 0 = f.msg_id / 256 ∧
    f.encode.getD 3 0 = f.msg_id % 256 ∧
    f.encode.drop 4 = f.packet.encode := by
  obtain ⟨M, p⟩ := f
  replace hM : M < 65536 := hM
  refine ⟨rfl, rfl, ?_, ?_, ?_⟩
  · have h2 : (UdpFrame.encode ⟨M, p⟩).getD 2 0 = M / 256 % 256 :=
      getD_at _ [(UdpFrame.headerLen + Packet.encodedLen p) % 256,
          MessageType.toByte (Packet.msgType p)] _ (M % 256 :: p.encode) 2
        (by simp [UdpFrame.encode, u16be]) (by simp)
    rw [h2]
    exact Nat.mod_eq_of_lt (by omega)
  · exact getD_at _ [(UdpFrame.headerLen + Packet.encodedLen p) % 256,
        MessageType.toByte (Packet.msgType p), M / 256 % 256] _ p.encode 3
      (by simp [UdpFrame.encode, u16be]) (by simp)
  · exact drop_at _ [(UdpFrame.headerLen + Packet.encodedLen p) % 256,
        MessageType.toByte (Packet.msgType p), M / 256 % 256, M % 256] p.encode 4
      (by simp [UdpFrame.encode, u16be]) (by simp)

/-- Witness for C4 at msg_id 258 (both big-endian id bytes nonzero) and a
PingReq packet. -/
theorem c4_frame_header_layout_witness :
    (UdpFrame.encode ⟨258, .PingReq ⟨⟩⟩).getD 0 0
      = (4 + (Packet.PingReq ⟨⟩).encodedLen) % 256 ∧
    (UdpFrame.encode ⟨258, .PingReq ⟨⟩⟩).getD 1 0
      = (Packet.PingReq ⟨⟩).msgType.toByte ∧
    (UdpFrame.encode ⟨258, .PingReq ⟨⟩⟩).getD 2 0 = 258 / 256 ∧
    (UdpFrame.encode ⟨258, .PingReq ⟨⟩⟩).getD 3 0 = 258 % 256 ∧
    (UdpFrame.encode ⟨258, .PingReq ⟨⟩⟩).drop 4 = (Packet.PingReq ⟨⟩).encode :=
  c4_frame_header_layout ⟨258, .PingReq ⟨⟩⟩ (by decide)

/-- Witness for C5: a PingReq frame with declared length 4 decodes
identically with three trailing bytes appended. -/
theorem c5_trailing_bytes_ignored_witness :
    UdpFrame.decode ([4, 7, 0, 5] ++ [9, 9, 9]) = some (.ok ⟨5, .PingReq ⟨⟩⟩) :=
  c5_trailing_bytes_ignored [4, 7, 0, 5] [9, 9, 9] ⟨5, .PingReq ⟨⟩⟩ (by decide)

/-- C6: out-of-range enumeration bytes always yield the matching
`Invalid*` error carrying the offending value, never a default: the Publish
flags QoS field, the QoS byte of any Subscribe filter (index `i`, with the
offsets `o j`/`m j` tracing the left-to-right scan through the earlier,
valid filters), the ConnAck return code, and the first invalid SubAck
return code. -/
theorem c6_invalid_enum_errors :
    (∀ buf : Bytes, buf.length ≠ 0 → (buf.getD 0 0 >>> 1) &&& 0x03 = 3 →
      Publish.decode buf = .error (.InvalidQoS 3)) ∧
    (∀ (buf : Bytes) (i : Nat) (o m : Nat → Nat) (t : Nat → Bytes),
      buf.length ≠ 0 → i < buf.getD 0 0 → o 0 = 1 →
      (∀ j, j ≤ i → readString buf (o j) = .ok (t j, m j)) →
      (∀ j, j ≤ i → m j < buf.length) →
      (∀ j, j < i → buf.getD (m j) 0 ≤ 2) →
      (∀ j, j < i → o (j + 1) = m j + 1) →
      2 < buf.getD (m i) 0 →
      Subscribe.decode buf = .error (.InvalidQoS (buf.getD (m i) 0))) ∧
    (∀ buf : Bytes, 2 ≤ buf.length → 5 < buf.getD 1 0 →
      ConnAck.decode buf = .error (.InvalidReturnCode (buf.getD 1 0))) ∧
    (∀ (buf : Bytes) (i : Nat), buf.length ≠ 0 →
      1 + buf.getD 0 0 ≤ buf.length → i < buf.getD 0 0 →
      (∀ j, j < i → buf.getD (1 + j) 0 ∈ ([0, 1, 2, 128] : List Nat)) →
      buf.getD (1 + i) 0 ∉ ([0, 1, 2, 128] : List Nat) →
      SubAck.decode buf = .error (.InvalidReturnCode (buf.getD (1 + i) 0))) :=
  ⟨publish_decode_invalid, subscribe_decode_invalid_general,
   connAck_decode_invalid, subAck_decode_invalid⟩

/-- Witness for C6: concrete buffers with an invalid QoS in Publish flags,
an invalid QoS on the second Subscribe filter (the first filter parses
fine), an invalid ConnAck return code, and an invalid second SubAck
code. -/
theorem c6_invalid_enum_errors_witness :
    Publish.decode [6] = .error (.InvalidQoS 3) ∧
    Subscribe.decode [2, 0, 1, 97, 1, 0, 1, 98, 7] = .error (.InvalidQoS 7) ∧
    ConnAck.decode [0, 9] = .error (.InvalidReturnCode 9) ∧
    SubAck.decode [2, 0, 5] = .error (.InvalidReturnCode 5) :=
  ⟨c6_invalid_enum_errors.1 [6] (by decide) (by decide),
   c6_invalid_enum_errors.2.1 [2, 0, 1, 97, 1, 0, 1, 98, 7] 1
     (fun j => if j = 0 then 1 else 5) (fun j => if j = 0 then 4 else 8)
     (fun j => if j = 0 then [97] else [98]) (by decide) (by decide) (by decide)
     (by intro j hj; interval_cases j <;> decide)
     (by intro j hj; interval_cases j <;> decide)
     (by intro j hj; interval_cases j <;> decide)
     (by intro j hj; interval_cases j <;> decide) (by decide),
   c6_invalid_enum_errors.2.2.1 [0, 9] (by decide) (by decide),
   c6_invalid_enum_errors.2.2.2 [2, 0, 5] 1 (by decide) (by decide) (by decide)
     (by intro j hj; have hj0 : j = 0 := Nat.lt_one_iff.mp hj; subst hj0; decide)
     (by decide)⟩

/-- C7: the Connect flags byte (first encoded byte) has bit 1 set iff
clean_session, bit 7 iff a username is present, bit 6 iff a password is
present; and decode takes the presence of username/password from those
flag bits of the buffer. -/
theorem c7_connect_flags_layout :
    (∀ c : Connect, c.encode.getD 0 0 = c.flags ∧
      (c.flags &&& 0x02 != 0) = c.clean_session ∧
      (c.flags &&& 0x80 != 0) = c.username.isSome ∧
      (c.flags &&& 0x40 != 0) = c.password.isSome) ∧
    (∀ (buf : Bytes) (c : Connect), Connect.decode buf = .ok c →
      c.clean_session = (buf.getD 0 0 &&& 0x02 != 0) ∧
      c.username.isSome = (buf.getD 0 0 &&& 0x80 != 0) ∧
      c.password.isSome = (buf.getD 0 0 &&& 0x40 != 0)) :=
  ⟨fun c => ⟨rfl, Connect.flags_bits c⟩, Connect.decode_flag_bits⟩

/-- Witness for C7: a Connect with clean_session and a password but no
username (flags byte 0x42), on the encode and decode sides. -/
theorem c7_connect_flags_layout_witness :
    (Connect.encode ⟨[97], 60, true, none, some [1, 2]⟩).getD 0 0
      = Connect.flags ⟨[97], 60, true, none, some [1, 2]⟩ ∧
    ((Connect.mk [97] 60 true none (some [1, 2])).clean_session
        = ([66, 0, 60, 0, 1, 97, 0, 2, 1, 2].getD 0 0 &&& 0x02 != 0) ∧
      (Connect.mk [97] 60 true none (some [1, 2])).username.isSome
        = ([66, 0, 60, 0, 1, 97, 0, 2, 1, 2].getD 0 0 &&& 0x80 != 0) ∧
      (Connect.mk [97] 60 true none (some [1, 2])).password.isSome
        = ([66, 0, 60, 0, 1, 97, 0, 2, 1, 2].getD 0 0 &&& 0x40 != 0)) :=
  ⟨(c7_connect_flags_layout.1 ⟨[97], 60, true, none, some [1, 2]⟩).1,
   c7_connect_flags_layout.2 [66, 0, 60, 0, 1, 97, 0, 2, 1, 2]
     ⟨[97], 60, true, none, some [1, 2]⟩ (by decide)⟩

/-- C8: decoding the 4-byte buffer `[4, 0xFF, 0, 0]` fails with
`InvalidMessageType(0xFF)`. -/
theorem c8_unknown_type_rejected :
    UdpFrame.decode [4, 0xFF, 0, 0]
      = some (.error (.InvalidMessageType 0xFF)) := by rfl

/-- C9: decoding `[10, 0x01, 0, 0]` (declared length 10, actual 4) fails
with `BufferTooShort{expected: 10, actual: 4}`. -/
theorem c9_short_buffer_rejected :
    UdpFrame.decode [10, 0x01, 0, 0]
      = some (.error (.BufferTooShort 10 4)) := by rfl

/-- C10: the zero-payload decoders accept any byte buffer, and a frame
whose type byte names PubAck, PingReq, PingResp or Disconnect decodes
successfully whenever the buffer covers the declared length, even with a
declared length above 4 and arbitrary payload bytes. -/
theorem c10_zero_payload_accepts_any :
    (∀ b : Bytes, PubAck.decode b = .ok ⟨⟩) ∧
    (∀ b : Bytes, PingReq.decode b = .ok ⟨⟩) ∧
    (∀ b : Bytes, PingResp.decode b = .ok ⟨⟩) ∧
    (∀ b : Bytes, Disconnect.decode b = .ok ⟨⟩) ∧
    (∀ (l m1 m2 : Nat) (extra : Bytes), 4 ≤ l → l ≤ 4 + extra.length →
      UdpFrame.decode (l :: 4 :: m1 :: m2 :: extra)
        = some (.ok ⟨m1 * 256 + m2, .PubAck ⟨⟩⟩)) ∧
    (∀ (l m1 m2 : Nat) (extra : Bytes), 4 ≤ l → l ≤ 4 + extra.length →
      UdpFrame.decode (l :: 7 :: m1 :: m2 :: extra)
        = some (.ok ⟨m1 * 256 + m2, .PingReq ⟨⟩⟩)) ∧
    (∀ (l m1 m2 : Nat) (extra : Bytes), 4 ≤ l → l ≤ 4 + extra.length →
      UdpFrame.decode (l :: 8 :: m1 :: m2 :: extra)
        = some (.ok ⟨m1 * 256 + m2, .PingResp ⟨⟩⟩)) ∧
    (∀ (l m1 m2 : Nat) (extra : Bytes), 4 ≤ l → l ≤ 4 + extra.length →
      UdpFrame.decode (l :: 9 :: m1 :: m2 :: extra)
        = some (.ok ⟨m1 * 256 + m2, .Disconnect ⟨⟩⟩)) :=
  ⟨fun _ => rfl, fun _ => rfl, fun _ => rfl, fun _ => rfl,
   fun l m1 m2 extra h4 hl =>
     frame_decode_zero_payload l 4 m1 m2 extra .PubAck (.PubAck ⟨⟩) h4 hl rfl
       (fun _ => rfl),
   fun l m1 m2 extra h4 hl =>
     frame_decode_zero_payload l 7 m1 m2 extra .PingReq (.PingReq ⟨⟩) h4 hl rfl
       (fun _ => rfl),
   fun l m1 m2 extra h4 hl =>
     frame_decode_zero_payload l 8 m1 m2 extra .PingResp (.PingResp ⟨⟩) h4 hl rfl
       (fun _ => rfl),
   fun l m1 m2 extra h4 hl =>
     frame_decode_zero_payload l 9 m1 m2 extra .Disconnect (.Disconnect ⟨⟩) h4 hl
       rfl (fun _ => rfl)⟩

/-- Witness for C10: each zero-payload frame with declared length 6 and two
garbage payload bytes decodes to msg_id 257 and the matching variant. -/
theorem c10_zero_payload_accepts_any_witness :
    PubAck.decode [1, 2, 3] = .ok ⟨⟩ ∧
    PingReq.decode [1, 2, 3] = .ok ⟨⟩ ∧
    PingResp.decode [1, 2, 3] = .ok ⟨⟩ ∧
    Disconnect.decode [1, 2, 3] = .ok ⟨⟩ ∧
    UdpFrame.decode [6, 4, 1, 1, 9, 9] = some (.ok ⟨257, .PubAck ⟨⟩⟩) ∧
    UdpFrame.decode [6, 7, 1, 1, 9, 9] = some (.ok ⟨257, .PingReq ⟨⟩⟩) ∧
    UdpFrame.decode [6, 8, 1, 1, 9, 9] = some (.ok ⟨257, .PingResp ⟨⟩⟩) ∧
    UdpFrame.decode [6, 9, 1, 1, 9, 9] = some (.ok ⟨257, .Disconnect ⟨⟩⟩) :=
  ⟨c10_zero_payload_accepts_any.1 [1, 2, 3],
   c10_zero_payload_accepts_any.2.1 [1, 2, 3],
   c10_zero_payload_accepts_any.2.2.1 [1, 2, 3],
   c10_zero_payload_accepts_any.2.2.2.1 [1, 2, 3],
   c10_zero_payload_accepts_any.2.2.2.2.1 6 1 1 [9, 9] (by decide) (by decide),
   c10_zero_payload_accepts_any.2.2.2.2.2.1 6 1 1 [9, 9] (by decide) (by decide),
   c10_zero_payload_accepts_any.2.2.2.2.2.2.1 6 1 1 [9, 9] (by decide) (by decide),
   c10_zero_payload_accepts_any.2.2.2.2.2.2.2 6 1 1 [9, 9] (by decide) (by decide)⟩

end Udd
